import Mathlib

/-
Verification of the EternalPulse scanner's evolutionary fuzzing core
(`scanner.py`): the genetic fuzzer (`GeneticFuzzer`), the evasion layer
(`EvasionEngine`) and the fuzzing driver (`_run_fuzzing`).

Modelling conventions (shallow embedding of the Python source):
- `bytes` values are `List Nat` (each element intended < 256).
- Randomness (`random.randint`, `random.random`, `random.choice`,
  `random.sample`, `os.urandom`, `uuid.uuid4`) is modelled by drawing from an
  explicit entropy list (`Entropy`); an empty list yields 0s.  Every draw-based
  primitive returns its value together with the remaining entropy.
- Python exceptions (`ValueError` from `random.randint(lo, hi)` with `hi < lo`,
  `TypeError` from `bytes.startswith(list)`, `struct.error` from
  `struct.pack(">H", n)` with `n > 65535`, `AttributeError` from the missing
  `_build_dns_encoded` helper) are modelled by `Option`: `none` means the
  Python code raises.
- Python `int(x * 0.15)`-style float truncations are modelled by exact
  rational truncation (`Nat` floor division).
-/

namespace EternalPulse

/-- Byte strings (`bytes` in Python) as lists of naturals. -/
abbrev Bytes := List Nat

/-- Externally supplied entropy: each random primitive consumes draws from
this list; an exhausted list keeps yielding 0. -/
abbrev Entropy := List Nat

/-- Draw one raw natural from the entropy source. -/
def draw : Entropy → Nat × Entropy
  | [] => (0, [])
  | n :: rest => (n, rest)

/-- Python `random.randint(lo, hi)`: a uniform value in `[lo, hi]`;
raises `ValueError` (here `none`) iff `hi < lo`. -/
def randint (lo hi : Nat) (s : Entropy) : Option (Nat × Entropy) :=
  if hi < lo then none
  else
    let (n, s') := draw s
    some (lo + n % (hi + 1 - lo), s')

/-- Python `random.randint(0, n - 1)` used to index a sequence of length `n`;
raises (here `none`) iff the sequence is empty (`randint(0, -1)`). -/
def randIndex (n : Nat) (s : Entropy) : Option (Nat × Entropy) :=
  if n = 0 then none
  else
    let (m, s') := draw s
    some (m % n, s')

/-- Python `random.random() < thousandths / 1000`: a biased coin.  The unit
interval is modelled at granularity 1/1000, which keeps both outcomes
reachable for the thresholds 0.7 and 0.4 used by the source. -/
def chance (thousandths : Nat) (s : Entropy) : Bool × Entropy :=
  let (n, s') := draw s
  (n % 1000 < thousandths, s')

/-- Python `os.urandom(k)`: `k` fresh bytes. -/
def urandom : Nat → Entropy → Bytes × Entropy
  | 0, s => ([], s)
  | k + 1, s =>
    ((draw s).1 % 256 :: (urandom k (draw s).2).1, (urandom k (draw s).2).2)

/-- ASCII bytes of a string literal. -/
def strBytes (s : String) : Bytes := s.toList.map Char.toNat

/-- Python `random.choice(l)`: uniform element; raises iff `l` is empty. -/
def pyChoice {α : Type} (l : List α) (s : Entropy) : Option (α × Entropy) := do
  let (i, s') ← randIndex l.length s
  match l.get? i with
  | some x => some (x, s')
  | none => none

/-- Python `random.sample(l, 2)`: two elements at distinct positions, in draw
order; raises `ValueError` (here `none`) iff `l` has fewer than 2 elements. -/
def sample2 {α : Type} (l : List α) (s : Entropy) : Option (α × α × Entropy) :=
  if l.length < 2 then none
  else do
    let (i, s1) ← randIndex l.length s
    let (j0, s2) ← randIndex (l.length - 1) s1
    let j := if i ≤ j0 then j0 + 1 else j0
    match l.get? i, l.get? j with
    | some x, some y => some (x, y, s2)
    | _, _ => none

/-- Containment test `needle in hay` on Python `bytes` (contiguous substring). -/
def bytesContains (hay needle : Bytes) : Bool :=
  match hay with
  | [] => needle.isEmpty
  | _ :: rest => needle.isPrefixOf hay || bytesContains rest needle

/-- Insertion-ordered Python `dict` update `d[k] = v`: overwrite in place if
the key exists, else append. -/
def dictInsert {α β : Type} [DecidableEq α] (k : α) (v : β) :
    List (α × β) → List (α × β)
  | [] => [(k, v)]
  | (k', v') :: rest =>
    if k' = k then (k, v) :: rest else (k', v') :: dictInsert k v rest

/-- Value of a `PROTOCOL_SIGNATURES` entry: the SMB entry is a Python `list`
of byte strings, every other entry is a single byte string. -/
inductive SigVal : Type
  | list (l : List Bytes)
  | bytes (b : Bytes)
deriving DecidableEq

/-- Global `PROTOCOL_SIGNATURES` table from `scanner.py`. -/
def PROTOCOL_SIGNATURES : List (String × SigVal) :=
  [("SMB", .list [[0xff, 0x53, 0x4d, 0x42], [0xfe, 0x53, 0x4d, 0x42]]),
   ("RDP", .bytes [0x03, 0x00, 0x00]),
   ("HTTP", .bytes (strBytes "HTTP/")),
   ("FTP", .bytes (strBytes "220")),
   ("SSH", .bytes (strBytes "SSH-")),
   ("DNS", .bytes [0x80, 0x00])]

/-- Python `PROTOCOL_SIGNATURES.get(protocol, b"")`. -/
def sigGet (protocol : String) : SigVal :=
  match PROTOCOL_SIGNATURES.lookup protocol with
  | some v => v
  | none => .bytes []

/-- Python `response.startswith(sig)`: defined for a `bytes` argument, but
raises `TypeError` (here `none`) when the argument is a `list` — which is
exactly what happens for the SMB entry of `PROTOCOL_SIGNATURES`. -/
def pyStartswith (response : Bytes) : SigVal → Option Bool
  | .bytes b => some (b.isPrefixOf response)
  | .list _ => none

/-- Error-indicator byte strings scanned by `GeneticFuzzer.fitness`. -/
def error_phrases : List Bytes :=
  [strBytes "error", strBytes "exception", strBytes "fail",
   strBytes "invalid", strBytes "crash"]

/-- State of a `GeneticFuzzer` instance.  The source constructor fixes
`population_size = 50`, `mutation_rate = 0.15` (stored here as a percentage)
and `generations = 10`; the methods only ever read the fields. -/
structure GeneticFuzzer where
  protocol : String
  population_size : Nat
  mutation_rate_pct : Nat
  generations : Nat
  population : List Bytes
deriving DecidableEq

namespace GeneticFuzzer

/-- Method `get_protocol_template`: fixed handshake bytes per protocol, or 128
random bytes for an unrecognized protocol. -/
def get_protocol_template (protocol : String) (s : Entropy) : Bytes × Entropy :=
  if protocol = "SMB" then
    ([0x00, 0x00, 0x00, 0xc0, 0xfe, 0x53, 0x4d, 0x42, 0x40, 0x00, 0x00, 0x00], s)
  else if protocol = "RDP" then
    ([0x03, 0x00, 0x00, 0x13, 0x0e, 0xe0, 0x00, 0x00, 0x00, 0x00, 0x00, 0x01,
      0x00, 0x08, 0x00], s)
  else if protocol = "HTTP" then
    (strBytes "GET / HTTP/1.1\r\nHost: example.com\r\n\r\n", s)
  else urandom 128 s

/-- Inner loop of `initialize_population`: flip `k` random positions of the
copied template to random byte values.  Raises iff the template is empty. -/
def flipPositions (k : Nat) (payload : Bytes) (s : Entropy) :
    Option (Bytes × Entropy) :=
  match k with
  | 0 => some (payload, s)
  | k + 1 => do
    let (idx, s1) ← randIndex payload.length s
    let (v, s2) ← randint 0 255 s1
    flipPositions k (payload.set idx v) s2

/-- Loop of `initialize_population`: `n` candidates, each a copy of the
template with `int(len(template) * 0.3)` random positions flipped. -/
def buildPopulation (template : Bytes) : Nat → Entropy → Option (List Bytes × Entropy)
  | 0, s => some ([], s)
  | n + 1, s => do
    let (payload, s1) ← flipPositions (template.length * 30 / 100) template s
    let (rest, s2) ← buildPopulation template n s1
    some (payload :: rest, s2)

/-- Method `initialize_population`: `population_size` candidates, each a copy
of the protocol template with `int(len(template) * 0.3)` random positions
flipped. -/
def initialize_population (protocol : String) (population_size : Nat)
    (s : Entropy) : Option (List Bytes × Entropy) :=
  let (template, s0) := get_protocol_template protocol s
  buildPopulation template population_size s0

/-- Constructor `GeneticFuzzer(protocol)` generalized over the population size
and generation budget; the source's `__init__` fixes them to 50 and 10
(see `init`). -/
def mkFuzzer (protocol : String) (population_size generations : Nat)
    (s : Entropy) : Option (GeneticFuzzer × Entropy) := do
  let (pop, s') ← initialize_population protocol population_size s
  some ({ protocol := protocol, population_size := population_size,
          mutation_rate_pct := 15, generations := generations,
          population := pop }, s')

/-- Constructor `GeneticFuzzer(protocol)` exactly as in the source. -/
def init (protocol : String) (s : Entropy) : Option (GeneticFuzzer × Entropy) :=
  mkFuzzer protocol 50 10 s

/-- Method `fitness(payload, response)`: additive anomaly score.  The payload
argument is unused by the source as well.  Raises `TypeError` (here `none`)
when the protocol's signature entry is a list (SMB). -/
def fitness (fz : GeneticFuzzer) (_payload response : Bytes) (s : Entropy) :
    Option (Nat × Entropy) := do
  let score0 : Nat := if response.length < 10 ∨ 1024 < response.length then 25 else 0
  let score1 : Nat := error_phrases.foldl
    (fun sc phrase => if bytesContains response phrase then sc + 15 else sc) score0
  let startsOk ← pyStartswith response (sigGet fz.protocol)
  let score2 : Nat := if startsOk then score1 else score1 + 20
  let (jitter, s') ← randint 0 10 s
  some (score2 + jitter, s')

/-- Method `crossover(parent1, parent2)`: single-point crossover at a split
drawn from `[1, min_len - 1]`; raises iff `min_len < 2`. -/
def crossover (parent1 parent2 : Bytes) (s : Entropy) :
    Option (Bytes × Entropy) := do
  let minLen := min parent1.length parent2.length
  let (split, s') ← randint 1 (minLen - 1) s
  some (parent1.take split ++ parent2.drop split, s')

/-- Method `mutate(payload)`: flip `max(1, int(len * mutation_rate))` random
positions to random byte values; raises iff the payload is empty. -/
def mutate (fz : GeneticFuzzer) (payload : Bytes) (s : Entropy) :
    Option (Bytes × Entropy) :=
  flipPositions (max 1 (payload.length * fz.mutation_rate_pct / 100)) payload s

/-- Number of positions at which two byte strings differ (positions beyond the
shorter one are ignored). -/
def diffCount : Bytes → Bytes → Nat
  | a :: as, b :: bs => (if a = b then 0 else 1) + diffCount as bs
  | _, _ => 0

/-- Fitness evaluation of one generation's `responses` dict
(`{payload: fitness(payload, resp) for payload, resp in responses.items()}`),
threading the jitter draws and propagating the SMB `TypeError`. -/
def fitnessScores (fz : GeneticFuzzer) (responses : List (Bytes × Bytes))
    (s : Entropy) : Option (List (Bytes × Nat) × Entropy) :=
  match responses with
  | [] => some ([], s)
  | (p, r) :: rest => do
    let (score, s1) ← fz.fitness p r s
    let (scores, s2) ← fitnessScores fz rest s1
    some ((p, score) :: scores, s2)

/-- Crossover part of one `evolve` iteration: with probability 0.7 pick two
(possibly equal) members of the new population and append their crossover
child. -/
def crossMaybe (acc : List Bytes) (s : Entropy) : Option (List Bytes × Entropy) :=
  let (doCross, s0) := chance 700 s
  if doCross then do
    let (parent1, s1) ← pyChoice acc s0
    let (parent2, s2) ← pyChoice acc s1
    let (child, s3) ← crossover parent1 parent2 s2
    some (acc ++ [child], s3)
  else some (acc, s0)

/-- Mutation part of one `evolve` iteration: with probability 0.4 replace a
random member of the new population with its mutation. -/
def mutateMaybe (fz : GeneticFuzzer) (acc : List Bytes) (s : Entropy) :
    Option (List Bytes × Entropy) :=
  let (doMut, s0) := chance 400 s
  if doMut then do
    let (idx, s1) ← randIndex acc.length s0
    let p ← acc.get? idx
    let (p', s2) ← fz.mutate p s1
    some (acc.set idx p', s2)
  else some (acc, s0)

/-- Body of one iteration of `evolve`'s while-loop: tournament-select a winner
(Python `max` returns the first maximum, so the second candidate wins only on
a strictly higher score), then the crossover and mutation parts. -/
def evolveStep (fz : GeneticFuzzer) (scores : List (Bytes × Nat))
    (acc : List Bytes) (s : Entropy) : Option (List Bytes × Entropy) := do
  let (c1, c2, s1) ← sample2 scores s
  let winner := if c1.2 < c2.2 then c2.1 else c1.1
  let (acc2, s2) ← crossMaybe (acc ++ [winner]) s1
  mutateMaybe fz acc2 s2

/-- Fuel-indexed unfolding of `evolve`'s `while len(new_population) <
population_size` loop.  Every iteration appends at least one member, so fuel
`population_size` always reaches the exit condition; the fuel-exhaustion
branch is unreachable from `evolve` but kept total. -/
def evolveLoop (fz : GeneticFuzzer) (scores : List (Bytes × Nat)) :
    Nat → List Bytes → Entropy → Option (List Bytes × Entropy)
  | 0, acc, s => if fz.population_size ≤ acc.length then some (acc, s) else none
  | fuel + 1, acc, s =>
    if fz.population_size ≤ acc.length then some (acc, s)
    else do
      let (acc', s') ← evolveStep fz scores acc s
      evolveLoop fz scores fuel acc' s'

/-- Method `evolve(responses)`: pass the population through unchanged when the
responses dict is empty, otherwise score every entry and rebuild the
population by tournament selection, crossover and mutation. -/
def evolve (fz : GeneticFuzzer) (responses : List (Bytes × Bytes))
    (s : Entropy) : Option (List Bytes × Entropy) :=
  if responses = [] then some (fz.population, s)
  else do
    let (scores, s1) ← fitnessScores fz responses s
    evolveLoop fz scores fz.population_size [] s1

end GeneticFuzzer

/-- Per-(host, port) record stored into `fuzzing_results` by `_run_fuzzing`
(source keys: `protocol`, `crashes`, `anomalies`, `tested_payloads`,
`generations`; the spec calls them `crash_count`, `anomaly_count`,
`tested_payload_count`, `generation_count`). -/
structure FuzzRecord where
  protocol : String
  crashes : Nat
  anomalies : Nat
  tested_payloads : Nat
  generations : Nat
deriving DecidableEq

/-- Outcome of one `_run_fuzzing` call: an escaped exception, a completed run
that recorded nothing (no crashes and no anomalies), or a recorded result. -/
inductive RunOutcome : Type
  | err
  | noRecord
  | recorded (r : FuzzRecord)
deriving DecidableEq

/-- Sending every payload of a population and collecting the replies into the
`responses` dict (`responses[payload] = response`).  The transport is the
`oracle` parameter; the source's `except` clause already maps every transport
failure to `b""`, so the oracle is total and `b""` is the failure sentinel. -/
def sendAll (oracle : Bytes → Bytes) (population : List Bytes) :
    List (Bytes × Bytes) :=
  population.foldl (fun m p => dictInsert p (oracle p) m) []

/-- Generation loop of `_run_fuzzing`: `generations` rounds of
`population = evolve(responses); responses = {retest population}`. -/
def genLoop (oracle : Bytes → Bytes) (fz : GeneticFuzzer) :
    Nat → List Bytes → List (Bytes × Bytes) → Entropy →
    Option (List Bytes × List (Bytes × Bytes) × Entropy)
  | 0, pop, responses, s => some (pop, responses, s)
  | g + 1, pop, responses, s => do
    let (pop', s') ← GeneticFuzzer.evolve { fz with population := pop } responses s
    genLoop oracle fz g pop' (sendAll oracle pop') s'

/-- Anomaly filter of `_run_fuzzing`
(`[p for p, r in responses.items() if r and fuzzer.fitness(p, r) > 50]`);
Python's `and` short-circuits, so `fitness` runs only on non-empty replies. -/
def countAnomalies (fz : GeneticFuzzer) (responses : List (Bytes × Bytes))
    (s : Entropy) : Option (Nat × Entropy) :=
  match responses with
  | [] => some (0, s)
  | (p, r) :: rest =>
    if r = [] then countAnomalies fz rest s
    else do
      let (score, s1) ← fz.fitness p r s
      let (n, s2) ← countAnomalies fz rest s1
      some ((if 50 < score then 1 else 0) + n, s2)

/-- Method `_run_fuzzing(host, port, protocol)` of `EternalPulseScanner`,
generalized over the fuzzer's population size and generation budget (the
source constructor fixes them to 50 and 10) and over the transport oracle. -/
def runFuzzing (oracle : Bytes → Bytes) (protocol : String)
    (population_size generations : Nat) (s : Entropy) : RunOutcome :=
  match GeneticFuzzer.mkFuzzer protocol population_size generations s with
  | none => .err
  | some (fz, s0) =>
    match genLoop oracle fz generations fz.population
        (sendAll oracle fz.population) s0 with
    | none => .err
    | some (pop, responses, s1) =>
      match countAnomalies fz responses s1 with
      | none => .err
      | some (anomalies, _) =>
        if responses.countP (fun pr => pr.2 = []) ≠ 0 ∨ anomalies ≠ 0 then
          .recorded { protocol := protocol,
                      crashes := responses.countP (fun pr => pr.2 = []),
                      anomalies := anomalies, tested_payloads := pop.length,
                      generations := fz.generations }
        else .noRecord

/-- Global `EVASION_TECHNIQUES` list from `scanner.py`. -/
def EVASION_TECHNIQUES : List String :=
  ["fragmentation", "protocol_tunneling", "traffic_morphing",
   "packet_padding", "source_spoofing", "ttl_manipulation",
   "dns_tunneling", "http_obfuscation", "icmp_covert",
   "session_splicing", "crypto_stealth", "protocol_misattribution"]

namespace EvasionEngine

/-- Field `technique_weights` of `EvasionEngine`, with the weights scaled to
thousandths (0.8 ↦ 800, …) to stay in exact arithmetic. -/
def technique_weights : List (String × Nat) :=
  [("fragmentation", 800), ("protocol_tunneling", 600),
   ("traffic_morphing", 900), ("packet_padding", 700),
   ("source_spoofing", 500), ("ttl_manipulation", 400),
   ("dns_tunneling", 300), ("http_obfuscation", 600),
   ("icmp_covert", 200), ("session_splicing", 400),
   ("crypto_stealth", 300), ("protocol_misattribution", 500)]

/-- Weighted branch of `select_techniques`: one independent biased coin per
technique, activating it iff `random.random() < weight * (stealth_level / 4)`
(the write-only `self.counters` bookkeeping is omitted).  The condition
`u < w * st / 4` with `u` at granularity 1/1000 is `u₁₀₀₀ * 4 < w₁₀₀₀ * st`. -/
def weightedSelect (stealth : Nat) : List (String × Nat) → Entropy →
    List String × Entropy
  | [], s => ([], s)
  | (tech, w) :: rest, s =>
    let n := (draw s).1
    let sel := (weightedSelect stealth rest (draw s).2).1
    let s2 := (weightedSelect stealth rest (draw s).2).2
    if n % 1000 * 4 < w * stealth then (tech :: sel, s2) else (sel, s2)

/-- Method `select_techniques`: a fixed 2-sample from the first four
techniques at stealth level 1; otherwise the weighted draw, falling back to
`["traffic_morphing"]` when nothing activates. -/
def select_techniques (stealth : Nat) (s : Entropy) :
    Option (List String × Entropy) :=
  if stealth = 1 then do
    let (t1, t2, s') ← sample2 (EVASION_TECHNIQUES.take 4) s
    some ([t1, t2], s')
  else
    let sel := (weightedSelect stealth technique_weights s).1
    some ((if sel = [] then ["traffic_morphing"] else sel),
      (weightedSelect stealth technique_weights s).2)

/-- Hexadecimal digit character code (`0`–`9`, `a`–`f`). -/
def hexChar (n : Nat) : Nat := if n < 10 then 48 + n else 87 + n

/-- Python `uuid.uuid4().hex`: 32 hexadecimal character codes derived from 16
random bytes. -/
def uuidHex (s : Entropy) : Bytes × Entropy :=
  (((urandom 16 s).1.map
      (fun b => [hexChar (b / 16), hexChar (b % 16)])).flatten,
   (urandom 16 s).2)

/-- Method `morph_traffic(packet, protocol)`: prepend an HTTP-looking header,
or DNS-encode via the helper `_build_dns_encoded` — which is nowhere defined
in `scanner.py`, so that branch raises `AttributeError` (here `none`) whenever
scapy is importable — or return the packet unchanged (`ICMP` target, or `DNS`
target without scapy). -/
def morph_traffic (scapyAvailable : Bool) (packet : Bytes) (_protocol : String)
    (s : Entropy) : Option (Bytes × Entropy) := do
  let (target, s1) ← pyChoice ["HTTP", "DNS", "ICMP"] s
  if target = "HTTP" then do
    let (h1, s2) ← randint 1 255 s1
    let (h2, s3) ← randint 1 255 s2
    some (strBytes "POST /" ++ (uuidHex s3).1 ++ strBytes " HTTP/1.1\r\nHost: " ++
          strBytes (Nat.repr h1) ++ strBytes "." ++ strBytes (Nat.repr h2) ++
          strBytes ".com\r\n" ++ packet, (uuidHex s3).2)
  else if target = "DNS" ∧ scapyAvailable = true then none
  else some (packet, s1)

/-- Method `add_packet_padding`: append `random.randint(0, 512)` random
bytes. -/
def add_packet_padding (packet : Bytes) (s : Entropy) : Bytes × Entropy :=
  (packet ++ (urandom ((draw s).1 % 513) (draw s).2).1,
   (urandom ((draw s).1 % 513) (draw s).2).2)

/-- MSB-first bit decomposition of one byte. -/
def byteBits (b : Nat) : List Nat :=
  [b / 128 % 2, b / 64 % 2, b / 32 % 2, b / 16 % 2,
   b / 8 % 2, b / 4 % 2, b / 2 % 2, b % 2]

/-- Value of an MSB-first bit list. -/
def bitsVal (l : List Nat) : Nat := l.foldl (fun a b => 2 * a + b) 0

/-- Split a bit list into 5-bit groups, zero-padding the final group (this is
exactly the data-character portion of RFC 4648 base32). -/
def group5 : List Nat → List Nat
  | [] => []
  | b :: rest =>
    (bitsVal ((b :: rest).take 5) * 2 ^ (5 - ((b :: rest).take 5).length)) ::
      group5 (rest.drop 4)
termination_by l => l.length
decreasing_by simp; omega

/-- Base32 alphabet character code for a 5-bit value (`A`–`Z`, `2`–`7`). -/
def b32Char (v : Nat) : Nat := if v < 26 then 65 + v else 24 + v

/-- Python `base64.b32encode(packet).decode().rstrip('=')`: the data
characters of the base32 encoding, with the `=` padding stripped. -/
def b32stripped (packet : Bytes) : Bytes :=
  (group5 ((packet.map byteBits).flatten)).map b32Char

/-- Chunks `encoded[i:i+63] for i in range(0, len(encoded), 63)`. -/
def chunks63 : List Nat → List (List Nat)
  | [] => []
  | c :: rest => ((c :: rest).take 63) :: chunks63 (rest.drop 62)
termination_by l => l.length
decreasing_by simp; omega

/-- Python `".".join(chunks)`. -/
def joinDots : List (List Nat) → List Nat
  | [] => []
  | [c] => c
  | c :: c' :: rest => c ++ strBytes "." ++ joinDots (c' :: rest)

/-- Method `dns_tunnel_obfuscate`: base32-encode, split into 63-character
DNS labels, and append the `.evil.com` suffix. -/
def dns_tunnel_obfuscate (packet : Bytes) : Bytes :=
  joinDots (chunks63 (b32stripped packet)) ++ strBytes ".evil.com"

/-- Method `http_obfuscate`: wrap the packet in a multipart/form-data POST
with a random boundary. -/
def http_obfuscate (packet : Bytes) (s : Entropy) : Bytes × Entropy :=
  let boundary := strBytes "----" ++ (uuidHex s).1
  let header := strBytes
      "POST /upload HTTP/1.1\r\nContent-Type: multipart/form-data; boundary=" ++
    boundary ++ strBytes "\r\n"
  let body := strBytes "\r\n--" ++ boundary ++ strBytes
      "\r\nContent-Disposition: form-data; name=\"file\"; filename=\"data.bin\"\r\n\r\n"
  let footer := strBytes "\r\n--" ++ boundary ++ strBytes "--\r\n"
  (header ++ body ++ packet ++ footer, (uuidHex s).2)

/-- Method `crypto_obfuscate`: draw a fresh 16-byte key and IV and return
`iv + AES-CFB(key, iv, packet)`.  The cipher itself lives in the
`cryptography` library, is total and length-preserving; its output bytes are
modelled as the plaintext bytes, since only totality and length matter
here. -/
def crypto_obfuscate (packet : Bytes) (s : Entropy) : Bytes × Entropy :=
  let s1 := (urandom 16 s).2
  ((urandom 16 s1).1 ++ packet, (urandom 16 s1).2)

/-- RFC 4648 base64 character code for a 6-bit value. -/
def b64Char (v : Nat) : Nat :=
  if v < 26 then 65 + v
  else if v < 52 then 71 + v
  else if v < 62 then v - 4
  else if v = 62 then 43 else 47

/-- Python `base64.b64encode`. -/
def b64encode : Bytes → Bytes
  | [] => []
  | [a] => [b64Char (a / 4), b64Char (a % 4 * 16), 61, 61]
  | [a, b] => [b64Char (a / 4), b64Char (a % 4 * 16 + b / 16),
               b64Char (b % 16 * 4), 61]
  | a :: b :: c :: rest =>
    [b64Char (a / 4), b64Char (a % 4 * 16 + b / 16),
     b64Char (b % 16 * 4 + c / 64), b64Char (c % 64)] ++ b64encode rest

/-- Method `misattribute_protocol(packet, actual_protocol)`: SMB packets get
an RDP-looking `\x03\x00\x00` + big-endian 16-bit length frame —
`struct.pack(">H", len(packet))` raises `struct.error` (here `none`) for
packets longer than 65535 bytes — RDP packets get a base64 HTTP GET wrap, and
everything else passes through. -/
def misattribute_protocol (packet : Bytes) (actual_protocol : String) :
    Option Bytes :=
  if actual_protocol = "SMB" then
    if packet.length < 65536 then
      some ([0x03, 0x00, 0x00] ++
            [packet.length / 256, packet.length % 256] ++ packet)
    else none
  else if actual_protocol = "RDP" then
    some (strBytes "GET /" ++ b64encode packet ++ strBytes " HTTP/1.1\r\n\r\n")
  else some packet

/-- Dispatch of one selected technique inside `apply_evasion`'s loop.
`fragmentation`, `source_spoofing` and `ttl_manipulation` are transport-level
hints (no-ops here even when scapy is importable), and `protocol_tunneling`,
`icmp_covert`, `session_splicing` have no branch at all. -/
def applyTechnique (scapy crypto : Bool) (protocol : String) (tech : String)
    (packet : Bytes) (s : Entropy) : Option (Bytes × Entropy) :=
  if tech = "traffic_morphing" then morph_traffic scapy packet protocol s
  else if tech = "packet_padding" then some (add_packet_padding packet s)
  else if tech = "dns_tunneling" ∧ (protocol = "HTTP" ∨ protocol = "SMB") then
    some (dns_tunnel_obfuscate packet, s)
  else if tech = "http_obfuscation" ∧ (protocol = "SMB" ∨ protocol = "RDP") then
    some (http_obfuscate packet s)
  else if tech = "crypto_stealth" ∧ crypto = true then
    some (crypto_obfuscate packet s)
  else if tech = "protocol_misattribution" then
    (misattribute_protocol packet protocol).map (fun b => (b, s))
  else some (packet, s)

/-- Sequential application of the selected techniques (`apply_evasion`'s
`for tech in techniques` loop). -/
def applyFold (scapy crypto : Bool) (protocol : String) :
    List String → Bytes → Entropy → Option (Bytes × Entropy)
  | [], p, s => some (p, s)
  | t :: rest, p, s => do
    let (p', s') ← applyTechnique scapy crypto protocol t p s
    applyFold scapy crypto protocol rest p' s'

/-- Method `apply_evasion(packet, protocol, target_ip)`: select techniques,
then fold them over the packet.  The scapy / cryptography import flags are
passed explicitly. -/
def apply_evasion (scapy crypto : Bool) (stealth : Nat) (packet : Bytes)
    (protocol : String) (s : Entropy) : Option (Bytes × Entropy) := do
  let (techs, s1) ← select_techniques stealth s
  applyFold scapy crypto protocol techs packet s1

/-- Length-bound function for one technique application (used to show the
pipeline cannot inflate a packet past the 16-bit length field of the SMB
misattribution frame). -/
def techBound (tech : String) (n : Nat) : Nat :=
  if tech = "traffic_morphing" then n + 68
  else if tech = "packet_padding" then n + 512
  else if tech = "dns_tunneling" then 4 * n + 20
  else if tech = "http_obfuscation" then n + 400
  else if tech = "crypto_stealth" then n + 16
  else if tech = "protocol_misattribution" then n + 20
  else n

/-- Composition of `techBound` along a technique list. -/
def foldBound : List String → Nat → Nat
  | [], n => n
  | t :: rest, n => foldBound rest (techBound t n)

/-- Techniques preceding `protocol_misattribution` in the weighted-selection
order — the only fallible transform runs last. -/
def frontNames : List String :=
  ["fragmentation", "protocol_tunneling", "traffic_morphing",
   "packet_padding", "source_spoofing", "ttl_manipulation",
   "dns_tunneling", "http_obfuscation", "icmp_covert",
   "session_splicing", "crypto_stealth"]

end EvasionEngine

/-- Number of the five error phrases occurring (case-sensitively, counted once
each) somewhere in a response. -/
def phrasesPresent (r : Bytes) : Nat :=
  error_phrases.countP (fun ph => bytesContains r ph)

/-- Fuzzer state with the constructor's field values and the SMB protocol
(the population field is irrelevant to the methods under test). -/
def fzSMB : GeneticFuzzer :=
  { protocol := "SMB", population_size := 50, mutation_rate_pct := 15,
    generations := 10, population := [] }

/-- Fuzzer state with the constructor's field values and the RDP protocol. -/
def fzRDP : GeneticFuzzer := { fzSMB with protocol := "RDP" }

/-- Fuzzer state with the constructor's field values and a protocol absent
from `PROTOCOL_SIGNATURES` (the "unknown" case of the claims). -/
def fzUNK : GeneticFuzzer := { fzSMB with protocol := "TELNET" }

/-- Responses dict with two distinct payloads, both with empty replies. -/
def respC1 : List (Bytes × Bytes) := [([0, 0, 0, 0], []), ([1, 1, 1, 1], [])]

/-- Entropy script for `evolve`: 2 jitter draws, 49 plain tournament
iterations (winner only, no crossover, no mutation), then one final iteration
whose crossover fires, overshooting the target population size by one. -/
def entC1 : Entropy :=
  [0, 0] ++ (List.replicate 49 [0, 0, 999, 999]).flatten ++
    [0, 0, 0, 0, 0, 0, 999]

/-- Entropy script for a complete 2-candidate, 1-generation RDP run: one
initial candidate mutated away from the template, one left equal to it, zero
jitters, and two plain tournament iterations per generation. -/
def entC2W : Entropy :=
  [0, 1, 0, 1, 0, 1, 0, 1, 0, 3, 0, 3, 0, 3, 0, 3, 0, 0,
   0, 0, 999, 999, 0, 0, 999, 999]

/-- Record produced by the run scripted by `entC2W`. -/
def recC2 : FuzzRecord :=
  { protocol := "RDP", crashes := 1, anomalies := 0, tested_payloads := 2,
    generations := 1 }

/-- Entropy script under which the weighted technique selection activates
nothing, so `apply_evasion` falls back to `["traffic_morphing"]`. -/
def entC5 : Entropy := List.replicate 12 999

namespace GeneticFuzzer

theorem flipPositions_length (k : Nat) :
    ∀ (p : Bytes) (s : Entropy) (q : Bytes) (s' : Entropy),
      flipPositions k p s = some (q, s') → q.length = p.length := by
  induction k with
  | zero =>
    intro p s q s' h
    simp only [flipPositions, Option.some.injEq, Prod.mk.injEq] at h
    rw [h.1]
  | succ k ih =>
    intro p s q s' h
    simp only [flipPositions] at h
    cases hri : randIndex p.length s with
    | none => rw [hri] at h; simp at h
    | some v =>
      obtain ⟨i, s1⟩ := v
      rw [hri] at h
      simp only [Option.bind_eq_bind, Option.some_bind, randint,
        Nat.not_lt_zero, if_false] at h
      have := ih (p.set i ((draw s1).1 % (255 + 1 - 0))) (draw s1).2 q s' (by
        simpa using h)
      simpa using this

theorem buildPopulation_length (template : Bytes) (n : Nat) :
    ∀ (s : Entropy) (l : List Bytes) (s' : Entropy),
      buildPopulation template n s = some (l, s') → l.length = n := by
  induction n with
  | zero =>
    intro s l s' h
    simp only [buildPopulation, Option.some.injEq, Prod.mk.injEq] at h
    rw [← h.1]; rfl
  | succ n ih =>
    intro s l s' h
    simp only [buildPopulation] at h
    cases hf : flipPositions (template.length * 30 / 100) template s with
    | none => rw [hf] at h; simp at h
    | some v =>
      obtain ⟨payload, s1⟩ := v
      rw [hf] at h
      simp only [Option.bind_eq_bind, Option.some_bind] at h
      cases hb : buildPopulation template n s1 with
      | none => rw [hb] at h; simp at h
      | some w =>
        obtain ⟨rest, s2⟩ := w
        rw [hb] at h
        simp only [Option.some_bind, Option.some.injEq, Prod.mk.injEq] at h
        have := ih s1 rest s2 hb
        rw [← h.1]
        simp [this]

theorem initialize_population_length (protocol : String) (n : Nat)
    (s : Entropy) (l : List Bytes) (s' : Entropy)
    (h : initialize_population protocol n s = some (l, s')) : l.length = n := by
  unfold initialize_population at h
  exact buildPopulation_length _ n _ l s' h

theorem diffCount_self (p : Bytes) : diffCount p p = 0 := by
  induction p with
  | nil => rfl
  | cons a as ih => simp [diffCount, ih]

theorem diffCount_set_le (p : Bytes) :
    ∀ (q : Bytes) (i v : Nat), diffCount p (q.set i v) ≤ diffCount p q + 1 := by
  induction p with
  | nil => intro q i v; simp [diffCount]
  | cons a as ih =>
    intro q i v
    cases q with
    | nil => simp [diffCount]
    | cons b bs =>
      cases i with
      | zero =>
        simp only [List.set, diffCount]
        have : diffCount as bs ≤ diffCount as bs := le_refl _
        split <;> split <;> omega
      | succ i =>
        simp only [List.set, diffCount]
        have := ih bs i v
        split <;> omega

theorem crossMaybe_length (acc : List Bytes) (s : Entropy) (q : List Bytes)
    (s' : Entropy) (h : crossMaybe acc s = some (q, s')) :
    q.length = acc.length ∨ q.length = acc.length + 1 := by
  unfold crossMaybe at h
  rcases hc : chance 700 s with ⟨dc, s0⟩
  rw [hc] at h
  cases dc with
  | false =>
    simp only [Bool.false_eq_true, if_false, Option.some.injEq,
      Prod.mk.injEq] at h
    left; rw [← h.1]
  | true =>
    simp only [if_true] at h
    cases hp1 : pyChoice acc s0 with
    | none => rw [hp1] at h; simp at h
    | some v1 =>
      obtain ⟨p1, s1⟩ := v1
      rw [hp1] at h
      simp only [Option.bind_eq_bind, Option.some_bind] at h
      cases hp2 : pyChoice acc s1 with
      | none => rw [hp2] at h; simp at h
      | some v2 =>
        obtain ⟨p2, s2⟩ := v2
        rw [hp2] at h
        simp only [Option.some_bind] at h
        cases hx : crossover p1 p2 s2 with
        | none => rw [hx] at h; simp at h
        | some v3 =>
          obtain ⟨child, s3⟩ := v3
          rw [hx] at h
          simp only [Option.some_bind, Option.some.injEq, Prod.mk.injEq] at h
          right; rw [← h.1]; simp

theorem mutateMaybe_length (fz : GeneticFuzzer) (acc : List Bytes)
    (s : Entropy) (q : List Bytes) (s' : Entropy)
    (h : mutateMaybe fz acc s = some (q, s')) : q.length = acc.length := by
  unfold mutateMaybe at h
  rcases hc : chance 400 s with ⟨dm, s0⟩
  rw [hc] at h
  cases dm with
  | false =>
    simp only [Bool.false_eq_true, if_false, Option.some.injEq,
      Prod.mk.injEq] at h
    rw [← h.1]
  | true =>
    simp only [if_true] at h
    cases hri : randIndex acc.length s0 with
    | none => rw [hri] at h; simp at h
    | some v =>
      obtain ⟨idx, s1⟩ := v
      rw [hri] at h
      simp only [Option.bind_eq_bind, Option.some_bind] at h
      cases hg : acc.get? idx with
      | none => rw [hg] at h; simp at h
      | some p =>
        rw [hg] at h
        simp only [Option.some_bind] at h
        cases hm : fz.mutate p s1 with
        | none => rw [hm] at h; simp at h
        | some w =>
          obtain ⟨p', s2⟩ := w
          rw [hm] at h
          simp only [Option.some_bind, Option.some.injEq, Prod.mk.injEq] at h
          rw [← h.1]; simp

theorem evolveStep_length (fz : GeneticFuzzer) (scores : List (Bytes × Nat))
    (acc : List Bytes) (s : Entropy) (acc' : List Bytes) (s' : Entropy)
    (h : evolveStep fz scores acc s = some (acc', s')) :
    acc.length + 1 ≤ acc'.length ∧ acc'.length ≤ acc.length + 2 := by
  unfold evolveStep at h
  cases hs : sample2 scores s with
  | none => rw [hs] at h; simp at h
  | some v =>
    obtain ⟨c1, c2, s1⟩ := v
    rw [hs] at h
    simp only [Option.bind_eq_bind, Option.some_bind] at h
    cases hc : crossMaybe (acc ++ [if c1.2 < c2.2 then c2.1 else c1.1]) s1 with
    | none => rw [hc] at h; simp at h
    | some w =>
      obtain ⟨acc2, s2⟩ := w
      rw [hc] at h
      simp only [Option.some_bind] at h
      have h1 := crossMaybe_length _ _ _ _ hc
      have h2 := mutateMaybe_length _ _ _ _ _ h
      simp only [List.length_append, List.length_cons, List.length_nil] at h1
      omega

theorem evolveLoop_length (fz : GeneticFuzzer) (scores : List (Bytes × Nat))
    (fuel : Nat) :
    ∀ (acc : List Bytes) (s : Entropy) (l : List Bytes) (s' : Entropy),
      evolveLoop fz scores fuel acc s = some (l, s') →
      (fz.population_size ≤ acc.length ∧ l = acc) ∨
      (acc.length < fz.population_size ∧ fz.population_size ≤ l.length ∧
        l.length ≤ fz.population_size + 1) := by
  induction fuel with
  | zero =>
    intro acc s l s' h
    simp only [evolveLoop] at h
    split at h
    · next hle =>
      simp only [Option.some.injEq, Prod.mk.injEq] at h
      left; exact ⟨hle, h.1.symm⟩
    · simp at h
  | succ fuel ih =>
    intro acc s l s' h
    simp only [evolveLoop] at h
    split at h
    · next hle =>
      simp only [Option.some.injEq, Prod.mk.injEq] at h
      left; exact ⟨hle, h.1.symm⟩
    · next hlt =>
      cases hstep : evolveStep fz scores acc s with
      | none => rw [hstep] at h; simp at h
      | some v =>
        obtain ⟨acc1, s1⟩ := v
        rw [hstep] at h
        simp only [Option.bind_eq_bind, Option.some_bind] at h
        have hlen := evolveStep_length _ _ _ _ _ _ hstep
        rcases ih acc1 s1 l s' h with ⟨h1, h2⟩ | ⟨h1, h2, h3⟩
        · subst h2; right; omega
        · right; omega

theorem evolve_length_bounds (fz : GeneticFuzzer)
    (responses : List (Bytes × Bytes)) (s : Entropy) (l : List Bytes)
    (s' : Entropy) (hne : responses ≠ [])
    (h : evolve fz responses s = some (l, s')) :
    fz.population_size ≤ l.length ∧ l.length ≤ fz.population_size + 1 := by
  unfold evolve at h
  rw [if_neg hne] at h
  cases hf : fitnessScores fz responses s with
  | none => rw [hf] at h; simp at h
  | some v =>
    obtain ⟨scores, s1⟩ := v
    rw [hf] at h
    simp only [Option.bind_eq_bind, Option.some_bind] at h
    rcases evolveLoop_length fz scores fz.population_size [] s1 l s' h with
      ⟨h1, h2⟩ | ⟨h1, h2, h3⟩
    · subst h2; simp only [List.length_nil] at h1 ⊢; omega
    · exact ⟨h2, h3⟩

theorem flipPositions_diff (k : Nat) :
    ∀ (base p : Bytes) (s : Entropy) (q : Bytes) (s' : Entropy),
      flipPositions k p s = some (q, s') →
      diffCount base q ≤ diffCount base p + k := by
  induction k with
  | zero =>
    intro base p s q s' h
    simp only [flipPositions, Option.some.injEq, Prod.mk.injEq] at h
    rw [h.1]; omega
  | succ k ih =>
    intro base p s q s' h
    simp only [flipPositions] at h
    cases hri : randIndex p.length s with
    | none => rw [hri] at h; simp at h
    | some v =>
      obtain ⟨i, s1⟩ := v
      rw [hri] at h
      simp only [Option.bind_eq_bind, Option.some_bind, randint,
        Nat.not_lt_zero, if_false] at h
      have hrec := ih base (p.set i ((draw s1).1 % (255 + 1 - 0))) (draw s1).2
        q s' (by simpa using h)
      have hset := diffCount_set_le base p i ((draw s1).1 % (255 + 1 - 0))
      omega

theorem foldl_phrase_score (r : Bytes) (l : List Bytes) :
    ∀ init : Nat,
      l.foldl (fun sc ph => if bytesContains r ph then sc + 15 else sc) init =
        init + 15 * l.countP (fun ph => bytesContains r ph) := by
  induction l with
  | nil => intro init; simp
  | cons ph rest ih =>
    intro init
    simp only [List.foldl_cons, List.countP_cons]
    cases hb : bytesContains r ph with
    | false =>
      simp only [hb, Bool.false_eq_true, if_false, ih]
      omega
    | true =>
      simp only [hb, if_true, ih]
      omega

theorem fitness_eq (fz : GeneticFuzzer) (p r : Bytes) (s : Entropy) (v : Nat)
    (s' : Entropy) (h : fz.fitness p r s = some (v, s')) :
    ∃ (startsOk : Bool) (jitter : Nat), jitter ≤ 10 ∧
      pyStartswith r (sigGet fz.protocol) = some startsOk ∧
      v = (if r.length < 10 ∨ 1024 < r.length then 25 else 0) +
          15 * phrasesPresent r + (if startsOk then 0 else 20) + jitter := by
  unfold fitness at h
  cases hps : pyStartswith r (sigGet fz.protocol) with
  | none => rw [hps] at h; simp at h
  | some b =>
    rw [hps] at h
    simp only [Option.bind_eq_bind, Option.some_bind, randint,
      Nat.not_lt_zero, if_false, Option.some.injEq, Prod.mk.injEq] at h
    refine ⟨b, (draw s).1 % (10 + 1 - 0), by omega, rfl, ?_⟩
    rw [← h.1]
    rw [foldl_phrase_score]
    unfold phrasesPresent
    cases b <;> simp

end GeneticFuzzer

theorem dictInsert_mem {α β : Type} [DecidableEq α] (k : α) (v : β)
    (m : List (α × β)) :
    ∀ pr ∈ dictInsert k v m, pr = (k, v) ∨ pr ∈ m := by
  induction m with
  | nil => intro pr hpr; simp [dictInsert] at hpr; left; exact hpr
  | cons kv rest ih =>
    obtain ⟨k', v'⟩ := kv
    intro pr hpr
    simp only [dictInsert] at hpr
    split at hpr
    · rcases List.mem_cons.1 hpr with h | h
      · left; exact h
      · right; exact List.mem_cons_of_mem _ h
    · rcases List.mem_cons.1 hpr with h | h
      · right; rw [h]; exact List.mem_cons_self _ _
      · rcases ih pr h with h' | h'
        · left; exact h'
        · right; exact List.mem_cons_of_mem _ h'

theorem dictInsert_length_le {α β : Type} [DecidableEq α] (k : α) (v : β)
    (m : List (α × β)) : (dictInsert k v m).length ≤ m.length + 1 := by
  induction m with
  | nil => simp [dictInsert]
  | cons kv rest ih =>
    obtain ⟨k', v'⟩ := kv
    simp only [dictInsert]
    split <;> simp only [List.length_cons] <;> omega

theorem dictInsert_ne_nil {α β : Type} [DecidableEq α] (k : α) (v : β)
    (m : List (α × β)) : dictInsert k v m ≠ [] := by
  cases m with
  | nil => simp [dictInsert]
  | cons kv rest =>
    obtain ⟨k', v'⟩ := kv
    simp only [dictInsert]
    split <;> simp

theorem sendAll_mem_values (oracle : Bytes → Bytes) (P : Bytes → Prop)
    (hP : ∀ p, P (oracle p)) (pop : List Bytes) :
    ∀ init : List (Bytes × Bytes), (∀ pr ∈ init, P pr.2) →
      ∀ pr ∈ pop.foldl (fun m p => dictInsert p (oracle p) m) init, P pr.2 := by
  induction pop with
  | nil => intro init hinit pr hpr; exact hinit pr hpr
  | cons p rest ih =>
    intro init hinit pr hpr
    simp only [List.foldl_cons] at hpr
    refine ih (dictInsert p (oracle p) init) ?_ pr hpr
    intro pr' hpr'
    rcases dictInsert_mem _ _ _ pr' hpr' with h | h
    · rw [h]; exact hP p
    · exact hinit pr' h

theorem sendAll_values_empty (pop : List Bytes) :
    ∀ pr ∈ sendAll (fun _ => []) pop, pr.2 = [] := by
  unfold sendAll
  exact sendAll_mem_values _ (fun r => r = []) (fun _ => rfl) pop []
    (by intro pr hpr; simp at hpr)

theorem sendAll_length_le (oracle : Bytes → Bytes) (pop : List Bytes) :
    ∀ init : List (Bytes × Bytes),
      (pop.foldl (fun m p => dictInsert p (oracle p) m) init).length ≤
        init.length + pop.length := by
  induction pop with
  | nil => intro init; simp
  | cons p rest ih =>
    intro init
    simp only [List.foldl_cons, List.length_cons]
    have h1 := ih (dictInsert p (oracle p) init)
    have h2 := dictInsert_length_le p (oracle p) init
    omega

theorem sendAll_ne_nil (oracle : Bytes → Bytes) (pop : List Bytes)
    (h : pop ≠ []) : sendAll oracle pop ≠ [] := by
  unfold sendAll
  cases pop with
  | nil => exact absurd rfl h
  | cons p rest =>
    simp only [List.foldl_cons]
    have : ∀ (l : List Bytes) (init : List (Bytes × Bytes)), init ≠ [] →
        l.foldl (fun m p => dictInsert p (oracle p) m) init ≠ [] := by
      intro l
      induction l with
      | nil => intro init hinit; simpa using hinit
      | cons q qrest ih =>
        intro init hinit
        simp only [List.foldl_cons]
        exact ih _ (dictInsert_ne_nil _ _ _)
    exact this rest _ (dictInsert_ne_nil _ _ _)

theorem mkFuzzer_spec (protocol : String) (n g : Nat) (s : Entropy)
    (fz : GeneticFuzzer) (s' : Entropy)
    (h : GeneticFuzzer.mkFuzzer protocol n g s = some (fz, s')) :
    fz.protocol = protocol ∧ fz.population_size = n ∧ fz.generations = g ∧
      fz.population.length = n := by
  unfold GeneticFuzzer.mkFuzzer at h
  cases hi : GeneticFuzzer.initialize_population protocol n s with
  | none => rw [hi] at h; simp at h
  | some v =>
    obtain ⟨pop, s1⟩ := v
    rw [hi] at h
    simp only [Option.bind_eq_bind, Option.some_bind, Option.some.injEq,
      Prod.mk.injEq] at h
    rw [← h.1]
    exact ⟨rfl, rfl, rfl,
      GeneticFuzzer.initialize_population_length _ _ _ _ _ hi⟩

theorem genLoop_inv (oracle : Bytes → Bytes) (fz : GeneticFuzzer) (g : Nat) :
    ∀ (pop : List Bytes) (s : Entropy) (pop' : List Bytes)
      (resp' : List (Bytes × Bytes)) (s' : Entropy),
      fz.population_size ≤ pop.length → pop.length ≤ fz.population_size + 1 →
      genLoop oracle fz g pop (sendAll oracle pop) s = some (pop', resp', s') →
      resp' = sendAll oracle pop' ∧ fz.population_size ≤ pop'.length ∧
        pop'.length ≤ fz.population_size + 1 := by
  induction g with
  | zero =>
    intro pop s pop' resp' s' h1 h2 h
    simp only [genLoop, Option.some.injEq, Prod.mk.injEq] at h
    obtain ⟨hp, hr, _⟩ := h
    subst hp
    exact ⟨hr.symm, h1, h2⟩
  | succ g ih =>
    intro pop s pop' resp' s' h1 h2 h
    simp only [genLoop] at h
    cases hev : GeneticFuzzer.evolve { fz with population := pop }
        (sendAll oracle pop) s with
    | none => rw [hev] at h; simp at h
    | some v =>
      obtain ⟨pop1, s1⟩ := v
      rw [hev] at h
      simp only [Option.bind_eq_bind, Option.some_bind] at h
      by_cases hre : sendAll oracle pop = []
      · rw [hre] at hev
        have heq : pop1 = pop ∧ s1 = s := by
          simp [GeneticFuzzer.evolve] at hev
          exact ⟨hev.1.symm, hev.2.symm⟩
        obtain ⟨hp1, hs1⟩ := heq
        subst hp1; subst hs1
        exact ih pop1 s1 pop' resp' s' h1 h2 h
      · have hb := GeneticFuzzer.evolve_length_bounds _ _ _ _ _ hre hev
        exact ih pop1 s1 pop' resp' s' hb.1 hb.2 h

theorem countAnomalies_empty_values (fz : GeneticFuzzer)
    (responses : List (Bytes × Bytes)) :
    ∀ s : Entropy, (∀ pr ∈ responses, pr.2 = []) →
      countAnomalies fz responses s = some (0, s) := by
  induction responses with
  | nil => intro s _; rfl
  | cons pr rest ih =>
    intro s hall
    obtain ⟨p, r⟩ := pr
    have hr : r = [] := hall (p, r) (List.mem_cons_self _ _)
    simp only [countAnomalies, hr, if_pos rfl]
    exact ih s (fun pr' hpr' => hall pr' (List.mem_cons_of_mem _ hpr'))

theorem natMul15Div100_le_round (n : Nat) :
    n * 15 / 100 ≤ (round ((n : ℚ) * 15 / 100)).toNat := by
  have hx : ((n : ℚ) * 15 / 100) = ((n * 15 : ℕ) : ℚ) / ((100 : ℕ) : ℚ) := by
    push_cast; ring
  have h1 : ⌊((n : ℚ) * 15 / 100)⌋₊ = n * 15 / 100 := by
    rw [hx, Nat.floor_div_nat, Nat.floor_natCast]
  have h2 : ⌊((n : ℚ) * 15 / 100)⌋ ≤ round ((n : ℚ) * 15 / 100) := by
    rw [round_eq]
    exact Int.floor_mono (by linarith)
  calc n * 15 / 100 = ⌊((n : ℚ) * 15 / 100)⌋₊ := h1.symm
    _ = (⌊((n : ℚ) * 15 / 100)⌋).toNat := (Int.floor_toNat _).symm
    _ ≤ (round ((n : ℚ) * 15 / 100)).toNat := Int.toNat_le_toNat h2

namespace EvasionEngine

theorem urandom_length (k : Nat) : ∀ s : Entropy, (urandom k s).1.length = k := by
  induction k with
  | zero => intro s; rfl
  | succ k ih => intro s; simp [urandom, ih]

theorem uuidHex_length (s : Entropy) : (uuidHex s).1.length = 32 := by
  have h : ∀ bs : List Nat,
      ((bs.map (fun b => [hexChar (b / 16), hexChar (b % 16)])).flatten).length =
        2 * bs.length := by
    intro bs
    induction bs with
    | nil => rfl
    | cons b rest ih =>
      simp only [List.map_cons, List.flatten_cons, List.length_append,
        List.length_cons, List.length_nil, ih]
      omega
  unfold uuidHex
  simp only [h, urandom_length]

set_option maxRecDepth 10000 in
theorem reprLen_le (n : Nat) (h : n < 256) :
    (strBytes (Nat.repr n)).length ≤ 3 := by
  have hall : ((List.range 256).all
      (fun m => decide ((strBytes (Nat.repr m)).length ≤ 3))) = true := by decide
  have := List.all_eq_true.1 hall n (List.mem_range.2 h)
  simpa using this

theorem httpHeader_bound (h1 h2 : Nat) (u p : Bytes) (hu : u.length = 32)
    (hh1 : h1 < 256) (hh2 : h2 < 256) :
    (strBytes "POST /" ++ u ++ strBytes " HTTP/1.1\r\nHost: " ++
      strBytes (Nat.repr h1) ++ strBytes "." ++ strBytes (Nat.repr h2) ++
      strBytes ".com\r\n" ++ p).length ≤ p.length + 68 := by
  have hr1 := reprLen_le h1 hh1
  have hr2 := reprLen_le h2 hh2
  have hc1 : (strBytes "POST /").length = 6 := rfl
  have hc2 : (strBytes " HTTP/1.1\r\nHost: ").length = 17 := rfl
  have hc3 : (strBytes ".").length = 1 := rfl
  have hc4 : (strBytes ".com\r\n").length = 6 := rfl
  simp only [List.length_append]
  omega

theorem morph_traffic_noscapy (p : Bytes) (protocol : String) (s : Entropy) :
    ∃ (q : Bytes) (s' : Entropy), morph_traffic false p protocol s =
      some (q, s') ∧ q.length ≤ p.length + 68 := by
  unfold morph_traffic
  have h3 : (["HTTP", "DNS", "ICMP"] : List String).length = 3 := rfl
  simp only [pyChoice, randIndex, h3, Option.bind_eq_bind, Option.some_bind,
    if_neg (by omega : ¬(3 : Nat) = 0)]
  have hm : (draw s).1 % 3 = 0 ∨ (draw s).1 % 3 = 1 ∨ (draw s).1 % 3 = 2 := by
    omega
  rcases hm with hm | hm | hm <;> rw [hm]
  · simp only [List.get?, Option.some_bind, if_true]
    simp only [randint, if_neg (by omega : ¬(255 : Nat) < 1),
      Option.bind_eq_bind, Option.some_bind]
    exact ⟨_, _, rfl,
      httpHeader_bound _ _ _ p (uuidHex_length _) (by omega) (by omega)⟩
  · simp only [List.get?, Option.some_bind, Bool.false_eq_true, and_false,
      if_false]
    exact ⟨p, _, rfl, by omega⟩
  · simp only [List.get?, Option.some_bind, Bool.false_eq_true, and_false,
      if_false]
    exact ⟨p, _, rfl, by omega⟩

theorem add_packet_padding_length (p : Bytes) (s : Entropy) :
    (add_packet_padding p s).1.length ≤ p.length + 512 := by
  unfold add_packet_padding
  simp only [List.length_append, urandom_length]
  omega

theorem flatten_byteBits_length (p : Bytes) :
    ((p.map byteBits).flatten).length = 8 * p.length := by
  induction p with
  | nil => rfl
  | cons b rest ih =>
    simp only [List.map_cons, List.flatten_cons, List.length_append, ih,
      List.length_cons]
    have : (byteBits b).length = 8 := rfl
    omega

theorem group5_length (l : List Nat) :
    (group5 l).length = (l.length + 4) / 5 := by
  induction l using group5.induct with
  | case1 => simp [group5]
  | case2 b rest ih =>
    rw [group5]
    simp only [List.length_cons, List.length_drop] at ih ⊢
    omega

theorem chunks63_sum (l : List Nat) :
    ((chunks63 l).map List.length).sum = l.length := by
  induction l using chunks63.induct with
  | case1 => simp [chunks63]
  | case2 c rest ih =>
    rw [chunks63]
    simp only [List.map_cons, List.sum_cons, List.length_take,
      List.length_cons, List.length_drop] at ih ⊢
    omega

theorem chunks63_count_le (l : List Nat) : (chunks63 l).length ≤ l.length := by
  induction l using chunks63.induct with
  | case1 => simp [chunks63]
  | case2 c rest ih =>
    rw [chunks63]
    simp only [List.length_cons, List.length_drop] at ih ⊢
    omega

theorem joinDots_length_le (L : List (List Nat)) :
    (joinDots L).length ≤ (L.map List.length).sum + L.length := by
  induction L with
  | nil => simp [joinDots]
  | cons c rest ih =>
    cases rest with
    | nil => simp [joinDots]
    | cons c' rest' =>
      simp only [joinDots, List.length_append, List.map_cons, List.sum_cons,
        List.length_cons] at ih ⊢
      have hdot : (strBytes ".").length = 1 := rfl
      omega

theorem dns_tunnel_length (p : Bytes) :
    (dns_tunnel_obfuscate p).length ≤ 4 * p.length + 20 := by
  unfold dns_tunnel_obfuscate
  have hsuf : (strBytes ".evil.com").length = 9 := rfl
  have he : (b32stripped p).length = (8 * p.length + 4) / 5 := by
    unfold b32stripped
    rw [List.length_map, group5_length, flatten_byteBits_length]
  have hj := joinDots_length_le (chunks63 (b32stripped p))
  rw [chunks63_sum] at hj
  have hc := chunks63_count_le (b32stripped p)
  simp only [List.length_append]
  omega

theorem http_obfuscate_length (p : Bytes) (s : Entropy) :
    (http_obfuscate p s).1.length ≤ p.length + 400 := by
  unfold http_obfuscate
  have hc1 : (strBytes
    "POST /upload HTTP/1.1\r\nContent-Type: multipart/form-data; boundary=").length
      = 67 := rfl
  have hc2 : (strBytes
    "\r\nContent-Disposition: form-data; name=\"file\"; filename=\"data.bin\"\r\n\r\n").length
      = 70 := rfl
  have hc3 : (strBytes "----").length = 4 := rfl
  have hc4 : (strBytes "\r\n").length = 2 := rfl
  have hc5 : (strBytes "\r\n--").length = 4 := rfl
  have hc6 : (strBytes "--\r\n").length = 4 := rfl
  have hu := uuidHex_length s
  simp only [List.length_append]
  omega

theorem crypto_obfuscate_length (p : Bytes) (s : Entropy) :
    (crypto_obfuscate p s).1.length ≤ p.length + 16 := by
  unfold crypto_obfuscate
  simp only [List.length_append, urandom_length]
  omega

theorem misattribute_isSome_of_lt (p : Bytes) (protocol : String)
    (h : p.length < 65536) : (misattribute_protocol p protocol).isSome = true := by
  unfold misattribute_protocol
  split_ifs with h1 h2 <;> rfl

theorem misattribute_isSome_of_ne (p : Bytes) (protocol : String)
    (h : protocol ≠ "SMB") : (misattribute_protocol p protocol).isSome = true := by
  unfold misattribute_protocol
  split_ifs with h1 h2 h3 <;> first | rfl | exact absurd h1 h

theorem techBound_infl (tech : String) (n : Nat) : n ≤ techBound tech n := by
  unfold techBound
  split_ifs <;> omega

theorem techBound_mono (tech : String) (a b : Nat) (h : a ≤ b) :
    techBound tech a ≤ techBound tech b := by
  unfold techBound
  split_ifs <;> omega

theorem foldBound_mono (techs : List String) :
    ∀ (a b : Nat), a ≤ b → foldBound techs a ≤ foldBound techs b := by
  induction techs with
  | nil => intro a b h; exact h
  | cons t rest ih =>
    intro a b h
    exact ih _ _ (techBound_mono t a b h)

theorem foldBound_infl (techs : List String) :
    ∀ n : Nat, n ≤ foldBound techs n := by
  induction techs with
  | nil => intro n; exact le_refl n
  | cons t rest ih =>
    intro n
    exact (techBound_infl t n).trans (ih _)

theorem foldBound_sublist {l L : List String} (h : l.Sublist L) :
    ∀ n : Nat, foldBound l n ≤ foldBound L n := by
  induction h with
  | slnil => intro n; exact le_refl n
  | cons a _ ih =>
    intro n
    exact (ih n).trans (foldBound_mono _ _ _ (techBound_infl a n))
  | cons₂ a _ ih =>
    intro n
    exact ih (techBound a n)

theorem foldBound_front (n : Nat) : foldBound frontNames n = 4 * n + 2756 := by
  show 4 * (n + 68 + 512) + 20 + 400 + 16 = 4 * n + 2756
  ring

theorem applyTechnique_no_misattr (crypto : Bool) (protocol tech : String)
    (p : Bytes) (s : Entropy) (h : tech ≠ "protocol_misattribution") :
    ∃ (q : Bytes) (s' : Entropy),
      applyTechnique false crypto protocol tech p s = some (q, s') ∧
      q.length ≤ techBound tech p.length := by
  by_cases h1 : tech = "traffic_morphing"
  · subst h1
    unfold applyTechnique
    rw [if_pos rfl]
    obtain ⟨q, s', hq, hb⟩ := morph_traffic_noscapy p protocol s
    exact ⟨q, s', hq, hb⟩
  by_cases h2 : tech = "packet_padding"
  · subst h2
    unfold applyTechnique
    rw [if_neg (by decide), if_pos rfl]
    exact ⟨_, _, rfl, add_packet_padding_length p s⟩
  by_cases h3 : tech = "dns_tunneling"
  · subst h3
    unfold applyTechnique
    rw [if_neg (by decide), if_neg (by decide)]
    by_cases hp : protocol = "HTTP" ∨ protocol = "SMB"
    · rw [if_pos ⟨rfl, hp⟩]
      exact ⟨_, _, rfl, dns_tunnel_length p⟩
    · rw [if_neg (fun hc => hp hc.2), if_neg (by simp), if_neg (by simp),
        if_neg (by decide)]
      refine ⟨p, s, rfl, ?_⟩
      show p.length ≤ 4 * p.length + 20
      omega
  by_cases h4 : tech = "http_obfuscation"
  · subst h4
    unfold applyTechnique
    rw [if_neg (by decide), if_neg (by decide), if_neg (by simp)]
    by_cases hp : protocol = "SMB" ∨ protocol = "RDP"
    · rw [if_pos ⟨rfl, hp⟩]
      exact ⟨_, _, rfl, http_obfuscate_length p s⟩
    · rw [if_neg (fun hc => hp hc.2), if_neg (by simp), if_neg (by decide)]
      refine ⟨p, s, rfl, ?_⟩
      show p.length ≤ p.length + 400
      omega
  by_cases h5 : tech = "crypto_stealth"
  · subst h5
    unfold applyTechnique
    rw [if_neg (by decide), if_neg (by decide), if_neg (by simp),
      if_neg (by simp)]
    cases crypto with
    | true =>
      rw [if_pos ⟨rfl, rfl⟩]
      exact ⟨_, _, rfl, crypto_obfuscate_length p s⟩
    | false =>
      rw [if_neg (by simp), if_neg (by decide)]
      refine ⟨p, s, rfl, ?_⟩
      show p.length ≤ p.length + 16
      omega
  · unfold applyTechnique
    rw [if_neg h1, if_neg h2, if_neg (fun hc => h3 hc.1),
      if_neg (fun hc => h4 hc.1), if_neg (fun hc => h5 hc.1), if_neg h]
    exact ⟨p, s, rfl, techBound_infl tech p.length⟩

theorem applyFold_no_misattr (crypto : Bool) (protocol : String) :
    ∀ (techs : List String), "protocol_misattribution" ∉ techs →
      ∀ (p : Bytes) (s : Entropy), ∃ (q : Bytes) (s' : Entropy),
        applyFold false crypto protocol techs p s = some (q, s') ∧
        q.length ≤ foldBound techs p.length := by
  intro techs
  induction techs with
  | nil => intro _ p s; exact ⟨p, s, rfl, le_refl _⟩
  | cons t rest ih =>
    intro hno p s
    have ht : t ≠ "protocol_misattribution" := fun hh =>
      hno (hh ▸ List.mem_cons_self t rest)
    have hrest : "protocol_misattribution" ∉ rest := fun hm =>
      hno (List.mem_cons_of_mem _ hm)
    obtain ⟨q1, s1, hq1, hb1⟩ := applyTechnique_no_misattr crypto protocol t p s ht
    obtain ⟨q2, s2, hq2, hb2⟩ := ih hrest q1 s1
    refine ⟨q2, s2, ?_, ?_⟩
    · simp only [applyFold, hq1, Option.some_bind, Option.bind_eq_bind]
      exact hq2
    · calc q2.length ≤ foldBound rest q1.length := hb2
        _ ≤ foldBound rest (techBound t p.length) := foldBound_mono rest _ _ hb1
        _ = foldBound (t :: rest) p.length := rfl

theorem applyFold_append (crypto : Bool) (protocol : String)
    (xs ys : List String) :
    ∀ (p : Bytes) (s : Entropy) (q : Bytes) (s' : Entropy),
      applyFold false crypto protocol xs p s = some (q, s') →
      applyFold false crypto protocol (xs ++ ys) p s =
        applyFold false crypto protocol ys q s' := by
  induction xs with
  | nil =>
    intro p s q s' h
    simp only [applyFold, Option.some.injEq, Prod.mk.injEq] at h
    rw [List.nil_append, h.1, h.2]
  | cons t rest ih =>
    intro p s q s' h
    simp only [applyFold, List.cons_append] at h ⊢
    cases ha : applyTechnique false crypto protocol t p s with
    | none => rw [ha] at h; simp at h
    | some v =>
      obtain ⟨q1, s1⟩ := v
      rw [ha] at h
      simp only [Option.some_bind, Option.bind_eq_bind] at h ⊢
      exact ih q1 s1 q s' h

theorem sample2_spec {α : Type} (l : List α) (s : Entropy)
    (h2 : 2 ≤ l.length) :
    ∃ (x y : α) (s' : Entropy), sample2 l s = some (x, y, s') ∧
      x ∈ l ∧ y ∈ l := by
  unfold sample2
  rw [if_neg (by omega)]
  have hl0 : ¬(l.length = 0) := by omega
  have hl1 : ¬(l.length - 1 = 0) := by omega
  simp only [randIndex, if_neg hl0, if_neg hl1, Option.bind_eq_bind,
    Option.some_bind]
  have hilt : (draw s).1 % l.length < l.length := Nat.mod_lt _ (by omega)
  have hjlt : (if (draw s).1 % l.length ≤ (draw (draw s).2).1 % (l.length - 1)
      then (draw (draw s).2).1 % (l.length - 1) + 1
      else (draw (draw s).2).1 % (l.length - 1)) < l.length := by
    have : (draw (draw s).2).1 % (l.length - 1) < l.length - 1 :=
      Nat.mod_lt _ (by omega)
    split <;> omega
  rw [List.get?_eq_get hilt, List.get?_eq_get hjlt]
  exact ⟨_, _, _, rfl, List.get_mem _ _ _, List.get_mem _ _ _⟩

theorem weightedSelect_sublist (stealth : Nat) :
    ∀ (wl : List (String × Nat)) (s : Entropy),
      ((weightedSelect stealth wl s).1).Sublist (wl.map Prod.fst) := by
  intro wl
  induction wl with
  | nil => intro s; simp [weightedSelect]
  | cons tw rest ih =>
    intro s
    obtain ⟨t, w⟩ := tw
    simp only [weightedSelect, List.map_cons]
    split
    · exact List.Sublist.cons₂ t (ih _)
    · exact (ih _).cons t

end EvasionEngine

end EternalPulse

namespace EternalPulse

/-- C1 (amended). `initialize_population` returns exactly `population_size`
candidates; for every non-empty responses map, the list returned by `evolve`
has length `population_size` or `population_size + 1` — the final loop
iteration's crossover can overshoot the target by one, so the length is not
always exactly `population_size`. -/
theorem c1_population_size_bounds :
    (∀ (protocol : String) (n : Nat) (s : Entropy) (l : List Bytes)
        (s' : Entropy),
      GeneticFuzzer.initialize_population protocol n s = some (l, s') →
      l.length = n) ∧
    (∀ (fz : GeneticFuzzer) (responses : List (Bytes × Bytes)) (s : Entropy)
        (l : List Bytes) (s' : Entropy), responses ≠ [] →
      fz.evolve responses s = some (l, s') →
      fz.population_size ≤ l.length ∧ l.length ≤ fz.population_size + 1) :=
  ⟨fun protocol n s l s' h =>
    GeneticFuzzer.initialize_population_length protocol n s l s' h,
   fun fz responses s l s' hne h =>
    GeneticFuzzer.evolve_length_bounds fz responses s l s' hne h⟩

/-- C1 (counterexample). On a two-entry responses map there is an entropy
script under which `evolve` of a 50-target fuzzer returns 51 candidates: the
claim that the result has length exactly `population_size` is false. -/
theorem c1_population_size_exact_false :
    GeneticFuzzer.evolve fzRDP respC1 entC1 =
      some (List.replicate 51 ([0, 0, 0, 0] : Bytes), []) ∧
    (List.replicate 51 ([0, 0, 0, 0] : Bytes)).length ≠ fzRDP.population_size :=
  ⟨by decide, by decide⟩

/-- C1 (witness). Both parts of the amended claim instantiated on concrete
runs. -/
theorem c1_population_size_bounds_witness :
    (GeneticFuzzer.initialize_population "RDP" 2 [] =
      some ([[0x00, 0x00, 0x00, 0x13, 0x0e, 0xe0, 0x00, 0x00, 0x00, 0x00,
              0x00, 0x01, 0x00, 0x08, 0x00],
             [0x00, 0x00, 0x00, 0x13, 0x0e, 0xe0, 0x00, 0x00, 0x00, 0x00,
              0x00, 0x01, 0x00, 0x08, 0x00]], []) ∧
      ([[0x00, 0x00, 0x00, 0x13, 0x0e, 0xe0, 0x00, 0x00, 0x00, 0x00,
         0x00, 0x01, 0x00, 0x08, 0x00],
        [0x00, 0x00, 0x00, 0x13, 0x0e, 0xe0, 0x00, 0x00, 0x00, 0x00,
         0x00, 0x01, 0x00, 0x08, 0x00]] : List Bytes).length = 2) ∧
    (respC1 ≠ [] ∧
      fzRDP.population_size ≤ (List.replicate 51 ([0, 0, 0, 0] : Bytes)).length ∧
      (List.replicate 51 ([0, 0, 0, 0] : Bytes)).length ≤
        fzRDP.population_size + 1) :=
  ⟨⟨by decide, c1_population_size_bounds.1 "RDP" 2 [] _ [] (by decide)⟩,
   by decide,
   c1_population_size_bounds.2 fzRDP respC1 entC1 _ [] (by decide) (by decide)⟩

/-- C2 (amended). With an oracle that replies `b""` to every candidate,
whenever `_run_fuzzing` completes and records a result, the record has
`anomaly_count = 0`, `crash_count` between 1 and `tested_payload_count`
(`crash_count` counts the *distinct* payloads of the final population, which
the responses dict deduplicates), and `tested_payload_count` equal to the
final population length, which is `population_size` or `population_size + 1`.
The run can also fail to complete: with an SMB seed `fitness` raises, and a
generation whose responses collapse to a single distinct payload makes
`random.sample` raise. -/
theorem c2_empty_oracle_run :
    ∀ (protocol : String) (population_size generations : Nat) (s : Entropy)
      (r : FuzzRecord),
      runFuzzing (fun _ => []) protocol population_size generations s =
        RunOutcome.recorded r →
      r.anomalies = 0 ∧ 1 ≤ r.crashes ∧ r.crashes ≤ r.tested_payloads ∧
        population_size ≤ r.tested_payloads ∧
        r.tested_payloads ≤ population_size + 1 ∧
        r.generations = generations ∧ r.protocol = protocol := by
  intro proto n g s r h
  unfold runFuzzing at h
  split at h
  · simp at h
  next fz s0 hmk =>
    obtain ⟨hproto, hn, hg, hlen⟩ := mkFuzzer_spec proto n g s fz s0 hmk
    split at h
    · simp at h
    next pop resp s1 hgl =>
      have hinv := genLoop_inv (fun _ => []) fz g fz.population s0 pop resp s1
        (by omega) (by omega) hgl
      obtain ⟨hresp, hlo, hhi⟩ := hinv
      have hvals : ∀ pr ∈ resp, pr.2 = [] := by
        rw [hresp]; exact sendAll_values_empty pop
      split at h
      · simp at h
      next anomalies s2 hca =>
        have hca0 := countAnomalies_empty_values fz resp s1 hvals
        rw [hca0] at hca
        simp only [Option.some.injEq, Prod.mk.injEq] at hca
        split at h
        · next hguard =>
          simp only [RunOutcome.recorded.injEq] at h
          subst h
          have hcnt : resp.countP (fun pr => pr.2 = []) = resp.length := by
            rw [List.countP_eq_length]
            intro a ha
            simpa using hvals a ha
          have hrlen : resp.length ≤ pop.length := by
            rw [hresp]
            have := sendAll_length_le (fun _ => []) pop []
            simpa [sendAll] using this
          have hcle := List.countP_le_length
            (p := fun pr : Bytes × Bytes => decide (pr.2 = [])) (l := resp)
          refine ⟨hca.1.symm, ?_, ?_, ?_, ?_, hg, rfl⟩
          · show 1 ≤ resp.countP (fun pr => pr.2 = [])
            rcases hguard with hc | ha
            · omega
            · exact absurd hca.1.symm ha
          · show resp.countP (fun pr => pr.2 = []) ≤ pop.length
            omega
          · show n ≤ pop.length
            omega
          · show pop.length ≤ n + 1
            omega
        · simp at h

/-- C2 (counterexample). The claim's own example configuration — SMB seed,
population 50, all-empty replies — does not complete at all: every candidate
collapses to the unmodified template under this entropy script, and `evolve`
then raises inside `fitness` (SMB's signature entry is a Python `list`, which
`bytes.startswith` rejects), so no record with `crash_count == 50` exists. -/
theorem c2_smb_run_raises :
    runFuzzing (fun _ => []) "SMB" 50 1 [] = RunOutcome.err := by decide

/-- C2 (witness). A concrete 2-candidate, 1-generation RDP run with the
all-empty oracle completes and satisfies every amended property. -/
theorem c2_empty_oracle_run_witness :
    runFuzzing (fun _ => []) "RDP" 2 1 entC2W = RunOutcome.recorded recC2 ∧
    (recC2.anomalies = 0 ∧ 1 ≤ recC2.crashes ∧
      recC2.crashes ≤ recC2.tested_payloads ∧ 2 ≤ recC2.tested_payloads ∧
      recC2.tested_payloads ≤ 2 + 1 ∧ recC2.generations = 1 ∧
      recC2.protocol = "RDP") :=
  ⟨by decide, c2_empty_oracle_run "RDP" 2 1 entC2W recC2 (by decide)⟩

/-- C3 (code bug). For the SMB protocol `fitness` never returns: the SMB
entry of `PROTOCOL_SIGNATURES` is a Python `list`, and `bytes.startswith`
raises `TypeError` on lists (the scanner's own `_detect_protocol` guards this
very case with `isinstance`).  For protocols whose entry is a byte string the
claimed behaviour holds: +20 when the response does not start with the
signature (RDP at the empty response: 25 + 20), and +0 for an unknown
protocol (`get` default `b""`, and every byte string starts with `b""`). -/
theorem c3_smb_fitness_raises :
    (∀ (p r : Bytes) (s : Entropy), fzSMB.fitness p r s = none) ∧
    (fzRDP.fitness [] [] []).map (fun x => x.1) = some 45 ∧
    (fzUNK.fitness [] (strBytes "0123456789") []).map (fun x => x.1) =
      some 0 :=
  ⟨fun _ _ _ => rfl, rfl, rfl⟩

/-- C4 (amended). The error-phrase contribution to `fitness` is 15 points per
*distinct phrase present*, case-sensitively — `15 * phrasesPresent r` — not
15 per occurrence and not case-insensitive: the score decomposes as length
anomaly + phrase hits + protocol violation + jitter (0–10). -/
theorem c4_phrase_scoring :
    ∀ (fz : GeneticFuzzer) (p r : Bytes) (s : Entropy) (v : Nat)
      (s' : Entropy), fz.fitness p r s = some (v, s') →
      ∃ (startsOk : Bool) (jitter : Nat), jitter ≤ 10 ∧
        pyStartswith r (sigGet fz.protocol) = some startsOk ∧
        v = (if r.length < 10 ∨ 1024 < r.length then 25 else 0) +
            15 * phrasesPresent r + (if startsOk then 0 else 20) + jitter :=
  fun fz p r s v s' h => GeneticFuzzer.fitness_eq fz p r s v s' h

/-- C4 (counterexample). A response containing `ERROR` twice scores 20 (only
the protocol-violation points): the case-insensitive per-occurrence reading
predicts at least 15·2 + 20 = 50 even at jitter 0. -/
theorem c4_case_insensitive_false :
    (fzRDP.fitness [] (strBytes "ERRORERROR") []).map (fun x => x.1) =
      some 20 ∧ ¬(15 * 2 + 20 ≤ 20) :=
  ⟨rfl, by omega⟩

/-- C4 (witness). The decomposition instantiated on a concrete response
containing `error` once: 25 (short) + 15 (one phrase) + 20 (no RDP
signature) + 7 (jitter) = 67. -/
theorem c4_phrase_scoring_witness :
    fzRDP.fitness [] (strBytes "error") [7] = some (67, []) ∧
    (∃ (startsOk : Bool) (jitter : Nat), jitter ≤ 10 ∧
      pyStartswith (strBytes "error") (sigGet fzRDP.protocol) = some startsOk ∧
      67 = (if (strBytes "error").length < 10 ∨
              1024 < (strBytes "error").length then 25 else 0) +
          15 * phrasesPresent (strBytes "error") +
          (if startsOk then 0 else 20) + jitter) :=
  ⟨rfl, c4_phrase_scoring fzRDP [] (strBytes "error") [7] 67 [] rfl⟩

/-- C5 (amended). The evasion transforms are total with two exceptions found
in the source: `misattribute_protocol` raises `struct.error` for SMB packets
longer than 65535 bytes (`struct.pack(">H", len)`), and `morph_traffic`
raises `AttributeError` when scapy is importable and the DNS morph target is
drawn (the helper `_build_dns_encoded` is not defined anywhere).  With scapy
unavailable: `apply_evasion` never raises on packets of at most 15000 bytes
(the pipeline can inflate a packet at most fourfold plus constants before the
final misattribution stage, staying under the 16-bit length field), every
other-protocol or short-enough `misattribute_protocol` call returns, and
`morph_traffic` is total — all including the empty packet. -/
theorem c5_evasion_totality :
    (∀ (crypto : Bool) (stealth : Nat) (protocol : String) (p : Bytes)
        (s : Entropy), p.length ≤ 15000 →
      (EvasionEngine.apply_evasion false crypto stealth p protocol s).isSome
        = true) ∧
    (∀ (p : Bytes) (protocol : String), p.length < 65536 →
      (EvasionEngine.misattribute_protocol p protocol).isSome = true) ∧
    (∀ (p : Bytes) (protocol : String), protocol ≠ "SMB" →
      (EvasionEngine.misattribute_protocol p protocol).isSome = true) ∧
    (∀ (p : Bytes) (protocol : String) (s : Entropy),
      (EvasionEngine.morph_traffic false p protocol s).isSome = true) := by
  refine ⟨?_, EvasionEngine.misattribute_isSome_of_lt,
    EvasionEngine.misattribute_isSome_of_ne, ?_⟩
  · intro crypto stealth protocol p s hlen
    unfold EvasionEngine.apply_evasion
    by_cases hst : stealth = 1
    · simp only [EvasionEngine.select_techniques, if_pos hst]
      obtain ⟨t1, t2, s', hs2, ht1, ht2⟩ :=
        EvasionEngine.sample2_spec (EVASION_TECHNIQUES.take 4) s (by decide)
      rw [hs2]
      simp only [Option.some_bind, Option.bind_eq_bind]
      have hfirst4 : "protocol_misattribution" ∉ EVASION_TECHNIQUES.take 4 := by
        decide
      have hno : "protocol_misattribution" ∉ [t1, t2] := by
        intro hm
        rcases List.mem_cons.1 hm with hm | hm
        · exact hfirst4 (by rw [hm]; exact ht1)
        · rcases List.mem_cons.1 hm with hm | hm
          · exact hfirst4 (by rw [hm]; exact ht2)
          · simp at hm
      obtain ⟨q, s'', hq, _⟩ :=
        EvasionEngine.applyFold_no_misattr crypto protocol [t1, t2] hno p s'
      rw [hq]; rfl
    · simp only [EvasionEngine.select_techniques, if_neg hst,
        Option.some_bind, Option.bind_eq_bind]
      by_cases hnil : (EvasionEngine.weightedSelect stealth
          EvasionEngine.technique_weights s).1 = []
      · rw [if_pos hnil]
        have hno : "protocol_misattribution" ∉ ["traffic_morphing"] := by decide
        obtain ⟨q, s'', hq, _⟩ :=
          EvasionEngine.applyFold_no_misattr crypto protocol _ hno p
            (EvasionEngine.weightedSelect stealth
              EvasionEngine.technique_weights s).2
        rw [hq]; rfl
      · rw [if_neg hnil]
        have hsub := EvasionEngine.weightedSelect_sublist stealth
          EvasionEngine.technique_weights s
        have hmap : EvasionEngine.technique_weights.map Prod.fst =
            EvasionEngine.frontNames ++ ["protocol_misattribution"] := by decide
        rw [hmap] at hsub
        obtain ⟨l1, l2, hsel, hsub1, hsub2⟩ := List.sublist_append_iff.1 hsub
        have hnofront : "protocol_misattribution" ∉ EvasionEngine.frontNames := by
          decide
        rcases List.sublist_singleton.1 hsub2 with h2 | h2
        · subst h2
          rw [List.append_nil] at hsel
          have hno : "protocol_misattribution" ∉
              (EvasionEngine.weightedSelect stealth
                EvasionEngine.technique_weights s).1 := by
            rw [hsel]
            exact fun hm => hnofront (hsub1.subset hm)
          obtain ⟨q, s'', hq, _⟩ :=
            EvasionEngine.applyFold_no_misattr crypto protocol _ hno p
              (EvasionEngine.weightedSelect stealth
                EvasionEngine.technique_weights s).2
          rw [hq]; rfl
        · subst h2
          have hno1 : "protocol_misattribution" ∉ l1 := fun hm =>
            hnofront (hsub1.subset hm)
          obtain ⟨q, s1, hq, hb⟩ :=
            EvasionEngine.applyFold_no_misattr crypto protocol l1 hno1 p
              (EvasionEngine.weightedSelect stealth
                EvasionEngine.technique_weights s).2
          rw [hsel, EvasionEngine.applyFold_append crypto protocol l1
            ["protocol_misattribution"] p _ q s1 hq]
          have hqlen : q.length < 65536 := by
            have h1 : EvasionEngine.foldBound l1 p.length ≤
                EvasionEngine.foldBound EvasionEngine.frontNames p.length :=
              EvasionEngine.foldBound_sublist hsub1 p.length
            rw [EvasionEngine.foldBound_front] at h1
            omega
          simp only [EvasionEngine.applyFold]
          unfold EvasionEngine.applyTechnique
          rw [if_neg (by decide), if_neg (by decide), if_neg (by simp),
            if_neg (by simp), if_neg (by simp), if_pos rfl]
          have hms := EvasionEngine.misattribute_isSome_of_lt q protocol hqlen
          cases hmq : EvasionEngine.misattribute_protocol q protocol with
          | none => rw [hmq] at hms; simp at hms
          | some b => rfl
  · intro p protocol s
    obtain ⟨q, s', hq, _⟩ := EvasionEngine.morph_traffic_noscapy p protocol s
    rw [hq]; rfl

/-- C5 (counterexample). `misattribute_protocol` on an SMB packet of 65536
bytes raises (`struct.pack(">H", 65536)` overflows the 16-bit field), so the
claim that no transform ever raises on any input is false. -/
theorem c5_oversized_smb_raises :
    EvasionEngine.misattribute_protocol (List.replicate 65536 0) "SMB" =
      none := by
  unfold EvasionEngine.misattribute_protocol
  rw [if_pos rfl, if_neg (by rw [List.length_replicate]; omega)]

/-- C5 (witness). All four amended guarantees instantiated on concrete
inputs, including the empty packet through the whole pipeline. -/
theorem c5_evasion_totality_witness :
    (([] : Bytes).length ≤ 15000 ∧
      (EvasionEngine.apply_evasion false false 3 [] "SMB" entC5).isSome
        = true) ∧
    (([0] : Bytes).length < 65536 ∧
      (EvasionEngine.misattribute_protocol [0] "SMB").isSome = true) ∧
    (("HTTP" : String) ≠ "SMB" ∧
      (EvasionEngine.misattribute_protocol [0] "HTTP").isSome = true) ∧
    (EvasionEngine.morph_traffic false [0] "RDP" []).isSome = true :=
  ⟨⟨by decide, c5_evasion_totality.1 false 3 "SMB" [] entC5 (by decide)⟩,
   ⟨by decide, c5_evasion_totality.2.1 [0] "SMB" (by decide)⟩,
   ⟨by decide, c5_evasion_totality.2.2.1 [0] "HTTP" (by decide)⟩,
   c5_evasion_totality.2.2.2 [0] "RDP" []⟩

/-- C6 (amended). `mutate` preserves the payload length and changes at most
`max(1, round(len(p) * 0.15))` byte positions — the `max` with 1 is forced:
the source always flips at least one position, so for payloads of length at
most 3 (where `round(len * 0.15) = 0`) the bound of the original claim is
exceeded. -/
theorem c6_mutate_bounds :
    ∀ (fz : GeneticFuzzer) (p : Bytes) (s : Entropy) (q : Bytes)
      (s' : Entropy), fz.mutation_rate_pct = 15 → 1 ≤ p.length →
      fz.mutate p s = some (q, s') →
      q.length = p.length ∧
      GeneticFuzzer.diffCount p q ≤
        max 1 ((round ((p.length : ℚ) * 15 / 100)).toNat) := by
  intro fz p s q s' hrate _ h
  unfold GeneticFuzzer.mutate at h
  rw [hrate] at h
  refine ⟨GeneticFuzzer.flipPositions_length _ _ _ _ _ h, ?_⟩
  have hd := GeneticFuzzer.flipPositions_diff _ p p s q s' h
  rw [GeneticFuzzer.diffCount_self] at hd
  have := natMul15Div100_le_round p.length
  omega

/-- C6 (counterexample). A one-byte payload is always changed in exactly one
position (the source flips `max(1, ...)` positions), while
`round(1 * 0.15) = 0`: the claim's bound of `round(len * 0.15)` is violated. -/
theorem c6_round_bound_false :
    (fzRDP.mutate [5] [0, 1]).map (fun x => x.1) = some [1] ∧
    GeneticFuzzer.diffCount [5] [1] = 1 ∧
    (round ((1 : ℚ) * 15 / 100)).toNat = 0 :=
  ⟨rfl, rfl, by
    have h0 : round ((1 : ℚ) * 15 / 100) = 0 := by
      rw [round_eq]
      have h13 : ((1 : ℚ) * 15 / 100 + 1 / 2) = 13 / 20 := by norm_num
      rw [h13, Int.floor_eq_zero_iff, Set.mem_Ico]
      constructor <;> norm_num
    rw [h0]; rfl⟩

/-- C6 (witness). The amended bound instantiated on a 7-byte payload: one
position flipped, bound `max(1, round(1.05)) = 1`. -/
theorem c6_mutate_bounds_witness :
    (fzRDP.mutation_rate_pct = 15 ∧ 1 ≤ ([0, 0, 0, 0, 0, 0, 0] : Bytes).length ∧
      fzRDP.mutate [0, 0, 0, 0, 0, 0, 0] [0, 9] =
        some ([9, 0, 0, 0, 0, 0, 0], [])) ∧
    (([9, 0, 0, 0, 0, 0, 0] : Bytes).length =
        ([0, 0, 0, 0, 0, 0, 0] : Bytes).length ∧
      GeneticFuzzer.diffCount [0, 0, 0, 0, 0, 0, 0] [9, 0, 0, 0, 0, 0, 0] ≤
        max 1 ((round ((([0, 0, 0, 0, 0, 0, 0] : Bytes).length : ℚ) *
          15 / 100)).toNat)) :=
  ⟨⟨rfl, by decide, rfl⟩,
   c6_mutate_bounds fzRDP [0, 0, 0, 0, 0, 0, 0] [0, 9] _ [] rfl (by decide) rfl⟩

/-- C7. For any protocol whose `PROTOCOL_SIGNATURES` lookup yields a byte
string (every protocol except SMB, including the `b""` default), a
zero-length response scores at least as high as any protocol-conformant,
normally-sized, error-free response, regardless of the jitter draws: the
empty response earns the +25 length anomaly (and +20 unless the signature is
empty), while the boring response earns only jitter ≤ 10 < 25. -/
theorem c7_empty_response_dominates :
    ∀ (fz : GeneticFuzzer) (p r sig : Bytes) (s1 s2 : Entropy) (v1 v2 : Nat)
      (s1' s2' : Entropy),
      sigGet fz.protocol = SigVal.bytes sig →
      sig.isPrefixOf r = true →
      10 ≤ r.length → r.length ≤ 1024 →
      (∀ ph ∈ error_phrases, bytesContains r ph = false) →
      fz.fitness p [] s1 = some (v1, s1') →
      fz.fitness p r s2 = some (v2, s2') →
      v2 ≤ v1 := by
  intro fz p r sig s1 s2 v1 v2 s1' s2' hsig hpre hlen1 hlen2 hph h1 h2
  obtain ⟨b1, j1, hj1, hps1, hv1⟩ := GeneticFuzzer.fitness_eq fz p [] s1 v1 s1' h1
  obtain ⟨b2, j2, hj2, hps2, hv2⟩ := GeneticFuzzer.fitness_eq fz p r s2 v2 s2' h2
  rw [hsig] at hps1 hps2
  simp only [pyStartswith, Option.some.injEq] at hps1 hps2
  have hb2 : b2 = true := by rw [← hps2]; exact hpre
  have hpp2 : phrasesPresent r = 0 := by
    unfold phrasesPresent
    rw [List.countP_eq_zero]
    intro ph hph'
    simp [hph ph hph']
  have hv2' : v2 = j2 := by
    rw [hv2, hb2, hpp2, if_neg (by omega : ¬(r.length < 10 ∨ 1024 < r.length))]
    simp
  have hpp1 : phrasesPresent ([] : Bytes) = 0 := by decide
  have hv1' : 25 ≤ v1 := by
    rw [hv1, hpp1]
    have : (([] : Bytes).length < 10 ∨ 1024 < ([] : Bytes).length) := by simp
    rw [if_pos this]
    omega
  omega

/-- C7 (witness). The dominance instantiated for RDP: empty response scores
45, a conformant 10-byte error-free response scores 0. -/
theorem c7_empty_response_dominates_witness :
    (sigGet fzRDP.protocol = SigVal.bytes [0x03, 0x00, 0x00] ∧
      ([0x03, 0x00, 0x00] : Bytes).isPrefixOf
        [0x03, 0x00, 0x00, 0, 0, 0, 0, 0, 0, 0] = true ∧
      10 ≤ ([0x03, 0x00, 0x00, 0, 0, 0, 0, 0, 0, 0] : Bytes).length ∧
      ([0x03, 0x00, 0x00, 0, 0, 0, 0, 0, 0, 0] : Bytes).length ≤ 1024 ∧
      fzRDP.fitness [] [] [] = some (45, []) ∧
      fzRDP.fitness [] [0x03, 0x00, 0x00, 0, 0, 0, 0, 0, 0, 0] [] =
        some (0, [])) ∧ (0 : Nat) ≤ 45 :=
  ⟨⟨by decide, by decide, by decide, by decide, rfl, rfl⟩,
   c7_empty_response_dominates fzRDP [] [0x03, 0x00, 0x00, 0, 0, 0, 0, 0, 0, 0]
     [0x03, 0x00, 0x00] [] [] 45 0 [] [] (by decide) (by decide) (by decide)
     (by decide) (by decide) rfl rfl⟩

/-- C8. `crossover(a, b)` with `min(len(a), len(b)) ≥ 2` is `a[:s] + b[s:]`
for a split point `1 ≤ s < min(len(a), len(b))`: its prefix up to `s` is
`a`'s prefix, its suffix from `s` is `b`'s suffix, and its length (which
always equals `len(b)`) lies in `[1, len(a) + len(b) - 1]`. -/
theorem c8_crossover_split :
    ∀ (a b : Bytes) (s : Entropy), 2 ≤ min a.length b.length →
      ∃ (sp : Nat) (s' : Entropy), 1 ≤ sp ∧ sp < min a.length b.length ∧
        GeneticFuzzer.crossover a b s = some (a.take sp ++ b.drop sp, s') ∧
        (a.take sp ++ b.drop sp).take sp = a.take sp ∧
        (a.take sp ++ b.drop sp).drop sp = b.drop sp ∧
        1 ≤ (a.take sp ++ b.drop sp).length ∧
        (a.take sp ++ b.drop sp).length ≤ a.length + b.length - 1 := by
  intro a b s hmin
  have hm1 : ¬(min a.length b.length - 1 < 1) := by omega
  have hmod : (draw s).1 % (min a.length b.length - 1 + 1 - 1) <
      min a.length b.length - 1 := Nat.mod_lt _ (by omega)
  refine ⟨1 + (draw s).1 % (min a.length b.length - 1 + 1 - 1), (draw s).2,
    by omega, by omega, ?_, ?_, ?_, ?_, ?_⟩
  · unfold GeneticFuzzer.crossover
    simp only [randint, hm1, if_false, Option.some_bind, Option.bind_eq_bind]
  · exact List.take_left' (by
      rw [List.length_take]
      omega)
  · exact List.drop_left' (by
      rw [List.length_take]
      omega)
  · rw [List.length_append, List.length_take, List.length_drop]
    omega
  · rw [List.length_append, List.length_take, List.length_drop]
    omega

/-- C8 (witness). Crossover of `[1, 2]` and `[3, 4]` at split 1. -/
theorem c8_crossover_split_witness :
    2 ≤ min ([1, 2] : Bytes).length ([3, 4] : Bytes).length ∧
    (∃ (sp : Nat) (s' : Entropy), 1 ≤ sp ∧
      sp < min ([1, 2] : Bytes).length ([3, 4] : Bytes).length ∧
      GeneticFuzzer.crossover [1, 2] [3, 4] [0] =
        some (([1, 2] : Bytes).take sp ++ ([3, 4] : Bytes).drop sp, s') ∧
      (([1, 2] : Bytes).take sp ++ ([3, 4] : Bytes).drop sp).take sp =
        ([1, 2] : Bytes).take sp ∧
      (([1, 2] : Bytes).take sp ++ ([3, 4] : Bytes).drop sp).drop sp =
        ([3, 4] : Bytes).drop sp ∧
      1 ≤ (([1, 2] : Bytes).take sp ++ ([3, 4] : Bytes).drop sp).length ∧
      (([1, 2] : Bytes).take sp ++ ([3, 4] : Bytes).drop sp).length ≤
        ([1, 2] : Bytes).length + ([3, 4] : Bytes).length - 1) :=
  ⟨by decide, c8_crossover_split [1, 2] [3, 4] [0] (by decide)⟩

/-- C9. `evolve` applied to an empty responses map returns the current
population unchanged, in order, without raising. -/
theorem c9_evolve_empty_responses (fz : GeneticFuzzer) (s : Entropy) :
    fz.evolve [] s = some (fz.population, s) := by
  simp [GeneticFuzzer.evolve]

/-- C10. On a responses map with exactly one entry, `evolve` raises (for SMB
already inside `fitness`; otherwise in the first loop iteration, where
`random.sample` cannot draw 2 elements from the single scored candidate). -/
theorem c10_evolve_singleton_raises :
    ∀ (fz : GeneticFuzzer) (p r : Bytes) (s : Entropy),
      1 ≤ fz.population_size → fz.evolve [(p, r)] s = none := by
  intro fz p r s h
  unfold GeneticFuzzer.evolve
  rw [if_neg (by simp)]
  cases hfit : fz.fitness p r s with
  | none => simp [GeneticFuzzer.fitnessScores, hfit]
  | some w =>
    obtain ⟨v, s1⟩ := w
    simp only [GeneticFuzzer.fitnessScores, hfit, Option.some_bind,
      Option.bind_eq_bind]
    obtain ⟨k, hk⟩ : ∃ k, fz.population_size = k + 1 :=
      ⟨fz.population_size - 1, by omega⟩
    rw [hk]
    simp [GeneticFuzzer.evolveLoop, GeneticFuzzer.evolveStep, sample2, hk]

/-- C10 (witness). A 50-target fuzzer on a singleton responses map. -/
theorem c10_evolve_singleton_raises_witness :
    1 ≤ fzRDP.population_size ∧ fzRDP.evolve [([0], [])] [] = none :=
  ⟨by decide, c10_evolve_singleton_raises fzRDP [0] [] [] (by decide)⟩

end EternalPulse
